import Mathlib

/-!
Verification of the SMMUv3 driver core (queue engine, stream-table engine,
bring-up register programming) against its natural-language specification.

The Rust sources are shallowly embedded: machine integers become `Nat` with
explicit masking where the source masks, bitwise operations (`&`, `|`, `^`,
`<<`, `>>`) become the corresponding `Nat` operations (`&&&`, `|||`, `^^^`,
`<<<`, `>>>`), struct mutation becomes functional state passing, and the
command-slot memory written by `cmd_insert` becomes an explicit `Nat → Cmd`
map.  Each definition mirrors one item of the source (file and line noted in
its doc comment).
-/

namespace Smmu

/-! ## General bit-arithmetic bridging lemmas

The source manipulates indices with `&`, `|`, `<<` on power-of-two sizes;
these lemmas relate those operations to `%`, `/` and `+` so the queue
algebra can be settled arithmetically. -/

theorem two_pow_mul_div_two_pow (a n i : Nat) (h : i ≤ n) :
    2 ^ n * a / 2 ^ i = 2 ^ (n - i) * a := by
  have hn : 2 ^ n = 2 ^ i * 2 ^ (n - i) := by
    rw [← pow_add]
    congr 1
    omega
  rw [hn, Nat.mul_assoc, Nat.mul_div_cancel_left _ (Nat.two_pow_pos i)]

theorem testBit_two_pow_mul (a n i : Nat) (h : i < n) :
    Nat.testBit (2 ^ n * a) i = false := by
  rw [Nat.testBit_to_div_mod, two_pow_mul_div_two_pow a n i (Nat.le_of_lt h)]
  have hni : n - i = (n - i - 1) + 1 := by omega
  rw [hni, pow_succ, Nat.mul_comm (2 ^ (n - i - 1)) 2, Nat.mul_assoc,
    Nat.mul_mod_right]
  simp

/-- Bits of a shifted-in high part do not interact with a low part:
`2^n * a ||| b = 2^n * a + b` whenever `b < 2^n`. -/
theorem two_pow_mul_lor_eq_add (a b n : Nat) (hb : b < 2 ^ n) :
    (2 ^ n * a) ||| b = 2 ^ n * a + b := by
  apply Nat.eq_of_testBit_eq
  intro i
  rw [Nat.testBit_lor]
  rcases Nat.lt_or_ge i n with hi | hi
  · rw [testBit_two_pow_mul a n i hi, Bool.false_or]
    rw [Nat.testBit_to_div_mod, Nat.testBit_to_div_mod]
    have hsplit : 2 ^ n * a = 2 ^ i * (2 ^ (n - i) * a) := by
      rw [← Nat.mul_assoc, ← pow_add]
      congr 2
      omega
    rw [hsplit, Nat.add_comm, Nat.add_mul_div_left b _ (Nat.two_pow_pos i)]
    have heven : 2 ^ (n - i) * a = 2 * (2 ^ (n - i - 1) * a) := by
      rw [← Nat.mul_assoc, ← pow_succ']
      congr 2
      omega
    rw [heven, Nat.add_mul_mod_self_left]
  · have hb' : Nat.testBit b i = false :=
      Nat.testBit_lt_two_pow
        (Nat.lt_of_lt_of_le hb (Nat.pow_le_pow_right (by omega) hi))
    rw [hb', Bool.or_false]
    rw [Nat.testBit_to_div_mod, Nat.testBit_to_div_mod]
    have hi2 : 2 ^ i = 2 ^ n * 2 ^ (i - n) := by
      rw [← pow_add]
      congr 1
      omega
    rw [hi2, ← Nat.div_div_eq_div_mul, ← Nat.div_div_eq_div_mul,
      Nat.mul_add_div (Nat.two_pow_pos n) a b,
      Nat.div_eq_of_lt hb, Nat.add_zero,
      Nat.mul_div_cancel_left _ (Nat.two_pow_pos n)]

theorem two_pow_lor_eq_add (b n : Nat) (hb : b < 2 ^ n) :
    2 ^ n ||| b = 2 ^ n + b := by
  have h := two_pow_mul_lor_eq_add 1 b n hb
  simpa using h

/-- The wrap-bit test `x &&& 2^n ≠ 0` is the parity of `x / 2^n`. -/
theorem and_two_pow_ne_zero_iff (x n : Nat) :
    (x &&& 2 ^ n ≠ 0) ↔ x / 2 ^ n % 2 = 1 := by
  rw [Nat.and_two_pow]
  rcases h : Nat.testBit x n with hf | ht
  · rw [Nat.testBit_to_div_mod] at h
    simp only [decide_eq_false_iff_not] at h
    simp only [Bool.toNat_false, Nat.zero_mul]
    omega
  · rw [Nat.testBit_to_div_mod] at h
    simp only [decide_eq_true_eq] at h
    simp only [Bool.toNat_true, Nat.one_mul]
    have := Nat.two_pow_pos n
    constructor
    · intro _
      exact h
    · intro _
      omega

/-- Splitting a residue modulo `2^(n+1)` into wrap bit and index. -/
theorem mod_two_pow_succ_split (x n : Nat) :
    x % 2 ^ (n + 1) = x / 2 ^ n % 2 * 2 ^ n + x % 2 ^ n := by
  have h : (2 : Nat) ^ (n + 1) = 2 ^ n * 2 := by rw [pow_succ]
  rw [h, Nat.mod_mul]
  ring

/-! ## Queue embedding — src/queue.rs -/

/-- src/queue.rs:12 — `MAX_CMD_EVENT_QS`. -/
def MAX_CMD_EVENT_QS : Nat := 19

/-- src/queue.rs:18 — opcode of `CMD_CFGI_STE`. -/
def CMD_CFGI_STE : Nat := 0x03

/-- src/queue.rs:19 — opcode of `CMD_SYNC`. -/
def CMD_SYNC : Nat := 0x46

/-- src/queue.rs:21 — `CMDQ_ENT_DWORDS`: a command is two 64-bit doublewords
(16 bytes). -/
def CMDQ_ENT_DWORDS : Nat := 2

/-- src/queue.rs:25 — `Cmd([u64; CMDQ_ENT_DWORDS])`: the two doublewords of a
16-byte command. -/
structure Cmd where
  w0 : Nat
  w1 : Nat
deriving DecidableEq

/-- `Cmd::default()` — both doublewords zero. -/
def Cmd.dfl : Cmd := { w0 := 0, w1 := 0 }

/-- src/queue.rs:32 — `CMD_CFGI_STE_SID_OFFSET`. -/
def CMD_CFGI_STE_SID_OFFSET : Nat := 32

/-- src/queue.rs:33 — `CMDQ_CFGI_1_LEAF`. -/
def CMDQ_CFGI_1_LEAF : Nat := 1

/-- src/queue.rs:31-42 — `Cmd::cmd_cfgi_ste`: starts from the default command
and ORs in the opcode, the StreamID at bit 32, and Leaf = 1 in word 1. -/
def Cmd.cmd_cfgi_ste (stream_id : Nat) : Cmd :=
  { w0 := Cmd.dfl.w0 ||| CMD_CFGI_STE ||| (stream_id <<< CMD_CFGI_STE_SID_OFFSET),
    w1 := Cmd.dfl.w1 ||| CMDQ_CFGI_1_LEAF }

/-- src/queue.rs:50-54 — `Cmd::cmd_sync`. -/
def Cmd.cmd_sync : Cmd :=
  { w0 := Cmd.dfl.w0 ||| CMD_SYNC, w1 := Cmd.dfl.w1 }

/-- src/queue.rs:58-65 — software queue state (the `base` pointer and the
phantom handler are memory-management details; the command slots written
through `base` are modelled explicitly as a `Nat → Cmd` map beside the
state). -/
structure Queue where
  queue_size : Nat
  qs : Nat
  prod : Nat
  cons : Nat
deriving DecidableEq

/-- src/queue.rs:68-77 — `Queue::uninit`. -/
def Queue.uninit : Queue :=
  { queue_size := 0, qs := 0, prod := 0, cons := 0 }

/-- src/queue.rs:79-88 — `Queue::init`: clamp the requested log2 size to
`MAX_CMD_EVENT_QS` and set `queue_size = 1 << qs` (allocation of the backing
pages is a memory-management detail). -/
def Queue.init (q : Queue) (qs0 : Nat) : Queue :=
  let qs1 := min qs0 MAX_CMD_EVENT_QS
  { q with qs := qs1, queue_size := 1 <<< qs1 }

/-- src/queue.rs:94-96 — `Queue::prod_value`. -/
def Queue.prod_value (q : Queue) : Nat := q.prod

/-- src/queue.rs:98-100 — `Queue::cons_value`. -/
def Queue.cons_value (q : Queue) : Nat := q.cons

/-- src/queue.rs:102-107 — `Queue::set_cons_value`: stores `cons` as given;
the returned flag is the `warn!` condition `cons & !((1 << qs) - 1) != 0`,
with `!` the 32-bit complement of the u32 mask. -/
def Queue.set_cons_value (q : Queue) (cons : Nat) : Queue × Bool :=
  ({ q with cons := cons },
    cons &&& (((1 <<< 32) - 1) ^^^ ((1 <<< q.qs) - 1)) != 0)

/-- src/queue.rs:109-111 — `Queue::prod_wr_wrap`. -/
def Queue.prod_wr_wrap (q : Queue) : Bool :=
  q.prod &&& (1 <<< q.qs) != 0

/-- src/queue.rs:113-115 — `Queue::cons_rd_wrap`. -/
def Queue.cons_rd_wrap (q : Queue) : Bool :=
  q.cons &&& (1 <<< q.qs) != 0

/-- src/queue.rs:117-119 — `Queue::prod_wr`. -/
def Queue.prod_wr (q : Queue) : Nat :=
  q.prod &&& (q.queue_size - 1)

/-- src/queue.rs:121-123 — `Queue::cons_rd`. -/
def Queue.cons_rd (q : Queue) : Nat :=
  q.cons &&& (q.queue_size - 1)

/-- src/queue.rs:125-145 — `Queue::inc_proc_wq`: increment the producer
index; when the incremented index masks to zero it is reduced modulo the
queue size and the wrap bit toggles; the packed 20-bit `{wrap, idx}` word is
rebuilt. -/
def Queue.inc_proc_wq (q : Queue) : Queue :=
  let current0 := q.prod_wr + 1
  let wrapped := current0 &&& (q.queue_size - 1) == 0
  let current_proc_wq := if wrapped then current0 % q.queue_size else current0
  let current_proc_wrap := if wrapped then !q.prod_wr_wrap else q.prod_wr_wrap
  let current_proc_wrap_bit := if current_proc_wrap then 1 <<< q.qs else 0
  { q with prod := current_proc_wrap_bit ||| current_proc_wq }

/-- src/queue.rs:147-151 — `Queue::full`. -/
def Queue.full (q : Queue) : Bool :=
  q.prod_wr == q.cons_rd && q.prod_wr_wrap != q.cons_rd_wrap

/-- src/queue.rs:153-157 — `Queue.empty`. -/
def Queue.empty (q : Queue) : Bool :=
  q.prod_wr == q.cons_rd && q.prod_wr_wrap == q.cons_rd_wrap

/-- src/queue.rs:159-166 — `Queue::cmd_insert`: write the command to the slot
at index `prod_wr`, then advance the producer.  No precondition is checked
and no error is signalled. -/
def Queue.cmd_insert (q : Queue) (mem : Nat → Cmd) (cmd : Cmd) :
    Queue × (Nat → Cmd) :=
  (q.inc_proc_wq, Function.update mem q.prod_wr cmd)

/-- A freshly initialized queue: `Queue::uninit()` followed by `init(qs)`
(prod = cons = 0). -/
def Queue.freshInit (qs0 : Nat) : Queue := Queue.uninit.init qs0

/-- Run a sequence of `cmd_insert` calls over queue state plus slot memory. -/
def runInserts : Queue × (Nat → Cmd) → List Cmd → Queue × (Nat → Cmd)
  | s, [] => s
  | s, c :: cs => runInserts (s.1.cmd_insert s.2 c) cs

/-- Producer state after `k` advances. -/
def Queue.afterInserts (q : Queue) : Nat → Queue
  | 0 => q
  | k + 1 => (q.afterInserts k).inc_proc_wq

/-- The architected `CMDQ_CONS.RD` value after the hardware has consumed
`cons_k` entries: per SMMUv3 §3.5 (doc comment of src/regs/cmdq_cons.rs) the
read index `{RD_WRAP, RD}` advances with the same wrap law as the producer
index, so it equals the producer register of a fresh queue advanced
`cons_k` times. -/
def consRegAfter (qs0 cons_k : Nat) : Nat :=
  ((Queue.freshInit qs0).afterInserts cons_k).prod

/-! ## Queue index algebra -/

theorem and_two_pow_sub_one_shift (x n : Nat) :
    x &&& ((1 <<< n) - 1) = x % 2 ^ n := by
  rw [Nat.shiftLeft_eq, Nat.one_mul, Nat.and_pow_two_sub_one_eq_mod]

theorem and_two_pow_bne (x n : Nat) :
    (x &&& (1 <<< n) != 0) = decide (x / 2 ^ n % 2 = 1) := by
  rw [Nat.shiftLeft_eq, Nat.one_mul]
  rcases Nat.mod_two_eq_zero_or_one (x / 2 ^ n) with h0 | h1
  · have hz : x &&& 2 ^ n = 0 := by
      by_contra hne
      have := (and_two_pow_ne_zero_iff x n).mp hne
      omega
    simp [hz, h0]
  · have hnz : x &&& 2 ^ n ≠ 0 := (and_two_pow_ne_zero_iff x n).mpr h1
    simp [bne_iff_ne, hnz, h1]

theorem state_prod_wr (Q p c : Nat) :
    (Queue.mk (2 ^ Q) Q p c).prod_wr = p % 2 ^ Q := by
  simp [Queue.prod_wr, Nat.and_pow_two_sub_one_eq_mod]

theorem state_cons_rd (Q p c : Nat) :
    (Queue.mk (2 ^ Q) Q p c).cons_rd = c % 2 ^ Q := by
  simp [Queue.cons_rd, Nat.and_pow_two_sub_one_eq_mod]

theorem state_prod_wr_wrap (Q p c : Nat) :
    (Queue.mk (2 ^ Q) Q p c).prod_wr_wrap = decide (p / 2 ^ Q % 2 = 1) := by
  simp only [Queue.prod_wr_wrap]
  exact and_two_pow_bne p Q

theorem state_cons_rd_wrap (Q p c : Nat) :
    (Queue.mk (2 ^ Q) Q p c).cons_rd_wrap = decide (c / 2 ^ Q % 2 = 1) := by
  simp only [Queue.cons_rd_wrap]
  exact and_two_pow_bne c Q

theorem mod_two_pow_succ_mod (x Q : Nat) :
    x % 2 ^ (Q + 1) % 2 ^ Q = x % 2 ^ Q :=
  Nat.mod_mod_of_dvd x ⟨2, by rw [pow_succ]⟩

theorem mod_two_pow_succ_div_parity (x Q : Nat) :
    x % 2 ^ (Q + 1) / 2 ^ Q % 2 = x / 2 ^ Q % 2 := by
  rw [mod_two_pow_succ_split]
  rw [Nat.mul_comm (x / 2 ^ Q % 2) (2 ^ Q), Nat.mul_add_div (Nat.two_pow_pos Q),
    Nat.div_eq_of_lt (Nat.mod_lt x (Nat.two_pow_pos Q)), Nat.add_zero]
  omega

/-- One producer advance on a state holding residue `k` takes it to residue
`k + 1`: `inc_proc_wq` realizes `prod ↦ prod + 1 (mod 2^(Q+1))`. -/
theorem Queue.inc_proc_wq_mod (Q k : Nat) (q : Queue) (hqs : q.qs = Q)
    (hsize : q.queue_size = 2 ^ Q) (hprod : q.prod = k % 2 ^ (Q + 1)) :
    q.inc_proc_wq = { q with prod := (k + 1) % 2 ^ (Q + 1) } := by
  have hP : 0 < 2 ^ Q := Nat.two_pow_pos Q
  have hwr : q.prod_wr = k % 2 ^ Q := by
    rw [Queue.prod_wr, hsize, hprod, Nat.and_pow_two_sub_one_eq_mod,
      mod_two_pow_succ_mod]
  have hwrap : q.prod_wr_wrap = decide (k / 2 ^ Q % 2 = 1) := by
    rw [Queue.prod_wr_wrap, hqs, hprod, and_two_pow_bne,
      mod_two_pow_succ_div_parity]
  have hshift : (1 : Nat) <<< Q = 2 ^ Q := by
    rw [Nat.shiftLeft_eq, Nat.one_mul]
  simp only [Queue.inc_proc_wq, hwr, hwrap, hsize, hqs, hshift]
  congr 1
  have hklt : k % 2 ^ Q < 2 ^ Q := Nat.mod_lt k hP
  rcases Nat.lt_or_ge (k % 2 ^ Q + 1) (2 ^ Q) with hlt | hge
  · -- no wrap: the incremented index stays below the queue size
    have hmask : (k % 2 ^ Q + 1) &&& (2 ^ Q - 1) = k % 2 ^ Q + 1 := by
      rw [Nat.and_pow_two_sub_one_eq_mod, Nat.mod_eq_of_lt hlt]
    have hbeq : ((k % 2 ^ Q + 1) &&& (2 ^ Q - 1) == 0) = false := by
      rw [hmask]
      simp
    rw [hbeq]
    simp only [if_false, Bool.false_eq_true]
    have hmod : (k + 1) % 2 ^ Q = k % 2 ^ Q + 1 := by
      conv_lhs => rw [show k + 1 = 2 ^ Q * (k / 2 ^ Q) + (k % 2 ^ Q + 1) by
        have := Nat.div_add_mod k (2 ^ Q); omega]
      rw [Nat.mul_add_mod, Nat.mod_eq_of_lt hlt]
    have hdiv : (k + 1) / 2 ^ Q = k / 2 ^ Q := by
      conv_lhs => rw [show k + 1 = 2 ^ Q * (k / 2 ^ Q) + (k % 2 ^ Q + 1) by
        have := Nat.div_add_mod k (2 ^ Q); omega]
      rw [Nat.mul_add_div hP, Nat.div_eq_of_lt hlt, Nat.add_zero]
    rw [mod_two_pow_succ_split, hmod, hdiv]
    rcases Nat.mod_two_eq_zero_or_one (k / 2 ^ Q) with hpar | hpar <;>
      simp [hpar, Nat.zero_or, two_pow_lor_eq_add _ _ hlt]
  · -- wrap: the incremented index reaches the queue size
    have heq : k % 2 ^ Q + 1 = 2 ^ Q := by omega
    have hbeq : ((k % 2 ^ Q + 1) &&& (2 ^ Q - 1) == 0) = true := by
      rw [heq, Nat.and_pow_two_sub_one_eq_mod, Nat.mod_self]
      simp
    rw [hbeq]
    simp only [if_true]
    have hk1 : k + 1 = 2 ^ Q * (k / 2 ^ Q) + 2 ^ Q := by
      have := Nat.div_add_mod k (2 ^ Q)
      omega
    have hmod : (k + 1) % 2 ^ Q = 0 := by
      rw [hk1, Nat.add_mod_right, Nat.mul_mod_right]
    have hdiv : (k + 1) / 2 ^ Q = k / 2 ^ Q + 1 := by
      rw [hk1, Nat.add_div_right _ hP, Nat.mul_div_cancel_left _ hP]
    rw [heq, Nat.mod_self, mod_two_pow_succ_split, hmod, hdiv]
    rcases Nat.mod_two_eq_zero_or_one (k / 2 ^ Q) with hpar | hpar <;>
      simp [hpar, Nat.or_zero] <;> omega

/-- Closed form of the producer state of a fresh queue after `k` advances. -/
theorem Queue.afterInserts_eq (Q : Nat) (hQ : Q ≤ MAX_CMD_EVENT_QS) (k : Nat) :
    (Queue.freshInit Q).afterInserts k =
      Queue.mk (2 ^ Q) Q (k % 2 ^ (Q + 1)) 0 := by
  induction k with
  | zero =>
    simp [Queue.freshInit, Queue.uninit, Queue.init, Queue.afterInserts,
      Nat.min_eq_left hQ, Nat.shiftLeft_eq, Nat.one_mul]
  | succ k ih =>
    show ((Queue.freshInit Q).afterInserts k).inc_proc_wq = _
    rw [ih, Queue.inc_proc_wq_mod Q k _ rfl rfl rfl]

theorem Queue.afterInserts_inc_comm (q : Queue) (n : Nat) :
    (q.inc_proc_wq).afterInserts n = (q.afterInserts n).inc_proc_wq := by
  induction n with
  | zero => rfl
  | succ n ih =>
    show ((q.inc_proc_wq).afterInserts n).inc_proc_wq = _
    rw [ih]
    rfl

/-- The queue-state component of a run of `cmd_insert`s is `inc_proc_wq`
iterated once per inserted command. -/
theorem runInserts_fst (cmds : List Cmd) : ∀ s : Queue × (Nat → Cmd),
    (runInserts s cmds).1 = s.1.afterInserts cmds.length := by
  induction cmds with
  | nil => intro s; rfl
  | cons c cs ih =>
    intro s
    show (runInserts (s.1.cmd_insert s.2 c) cs).1 = _
    rw [ih]
    show (s.1.inc_proc_wq).afterInserts cs.length = _
    rw [Queue.afterInserts_inc_comm]
    rfl

/-- If `k` and `ck` agree modulo `P` and differ by at most `P`, they are
equal or exactly `P` apart. -/
theorem mod_eq_cases (P k ck : Nat) (hP : 0 < P) (hck : ck ≤ k)
    (hbound : k ≤ ck + P) (hm : k % P = ck % P) : k = ck ∨ k = ck + P := by
  have hz : (k - ck) % P = 0 := Nat.sub_mod_eq_zero_of_mod_eq hm
  have hdvd : P ∣ (k - ck) := Nat.dvd_iff_mod_eq_zero.mpr hz
  obtain ⟨c, hc⟩ := hdvd
  match c with
  | 0 => left; omega
  | 1 => right; omega
  | c + 2 =>
    exfalso
    have hexp : P * (c + 2) = P * c + P + P := by ring
    rw [hexp] at hc
    omega

/-- Arithmetic core of `full`/`empty`: with both indices valid residues and
the queue not overfilled, `full` is distance exactly `P` and `empty` is
distance zero. -/
theorem full_empty_char (Q k ck : Nat) (hck : ck ≤ k)
    (hbound : k ≤ ck + 2 ^ Q) :
    ((Queue.mk (2 ^ Q) Q (k % 2 ^ (Q + 1)) (ck % 2 ^ (Q + 1))).full = true ↔
      k - ck = 2 ^ Q) ∧
    ((Queue.mk (2 ^ Q) Q (k % 2 ^ (Q + 1)) (ck % 2 ^ (Q + 1))).empty = true ↔
      k = ck) := by
  have hP : 0 < 2 ^ Q := Nat.two_pow_pos Q
  have hfull : (Queue.mk (2 ^ Q) Q (k % 2 ^ (Q + 1)) (ck % 2 ^ (Q + 1))).full
      = true ↔
      (k % 2 ^ Q = ck % 2 ^ Q ∧ ¬(k / 2 ^ Q % 2 = 1 ↔ ck / 2 ^ Q % 2 = 1)) := by
    rw [Queue.full, state_prod_wr, state_cons_rd, state_prod_wr_wrap,
      state_cons_rd_wrap, mod_two_pow_succ_mod, mod_two_pow_succ_mod,
      mod_two_pow_succ_div_parity, mod_two_pow_succ_div_parity]
    simp [Bool.and_eq_true, beq_iff_eq, bne_iff_ne, decide_eq_decide]
  have hempty : (Queue.mk (2 ^ Q) Q (k % 2 ^ (Q + 1)) (ck % 2 ^ (Q + 1))).empty
      = true ↔
      (k % 2 ^ Q = ck % 2 ^ Q ∧ (k / 2 ^ Q % 2 = 1 ↔ ck / 2 ^ Q % 2 = 1)) := by
    rw [Queue.empty, state_prod_wr, state_cons_rd, state_prod_wr_wrap,
      state_cons_rd_wrap, mod_two_pow_succ_mod, mod_two_pow_succ_mod,
      mod_two_pow_succ_div_parity, mod_two_pow_succ_div_parity]
    simp [Bool.and_eq_true, beq_iff_eq, decide_eq_decide]
  rw [hfull, hempty]
  by_cases h0 : k = ck
  · subst h0
    constructor
    · constructor
      · intro h
        exact absurd Iff.rfl h.2
      · intro h
        omega
    · simp
  · by_cases h1 : k = ck + 2 ^ Q
    · have hm : k % 2 ^ Q = ck % 2 ^ Q := by
        rw [h1, Nat.add_mod_right]
      have hd : k / 2 ^ Q = ck / 2 ^ Q + 1 := by
        rw [h1, Nat.add_div_right _ hP]
      constructor
      · constructor
        · intro _
          omega
        · intro _
          refine ⟨hm, ?_⟩
          rw [hd]
          omega
      · constructor
        · intro h
          rw [hd] at h
          omega
        · intro h
          exact absurd h h0
    · have hne : k % 2 ^ Q ≠ ck % 2 ^ Q := by
        intro hm
        rcases mod_eq_cases (2 ^ Q) k ck hP hck hbound hm with h | h
        · exact h0 h
        · exact h1 h
      constructor
      · constructor
        · intro h
          exact absurd h.1 hne
        · intro h
          omega
      · constructor
        · intro h
          exact absurd h.1 hne
        · intro h
          exact absurd h h0

/-- C1 (amended): for every queue log2 size `Q ∈ [0, 19]`, starting from a
freshly initialized queue, after `k` calls to `cmd_insert` the software
producer state decomposes as `idx = k mod 2^Q` and `wrap = (k / 2^Q) mod 2`;
and with `cons_k` entries consumed — provided the producer has not overfilled
the queue, i.e. `cons_k ≤ k ≤ cons_k + 2^Q` — `full()` holds exactly when
`k - cons_k = 2^Q` and `empty()` exactly when `k = cons_k`. -/
theorem cmdq_index_algebra (Q ck : Nat) (cmds : List Cmd) (mem0 : Nat → Cmd)
    (hQ : Q ≤ MAX_CMD_EVENT_QS) (hck : ck ≤ cmds.length)
    (hbound : cmds.length ≤ ck + 2 ^ Q) :
    (runInserts (Queue.freshInit Q, mem0) cmds).1.prod_wr =
      cmds.length % 2 ^ Q ∧
    ((runInserts (Queue.freshInit Q, mem0) cmds).1.prod_wr_wrap = true ↔
      cmds.length / 2 ^ Q % 2 = 1) ∧
    (((runInserts (Queue.freshInit Q, mem0) cmds).1.set_cons_value
        (consRegAfter Q ck)).1.full = true ↔ cmds.length - ck = 2 ^ Q) ∧
    (((runInserts (Queue.freshInit Q, mem0) cmds).1.set_cons_value
        (consRegAfter Q ck)).1.empty = true ↔ cmds.length = ck) := by
  have hq := runInserts_fst cmds (Queue.freshInit Q, mem0)
  rw [Queue.afterInserts_eq Q hQ] at hq
  have hcons : consRegAfter Q ck = ck % 2 ^ (Q + 1) := by
    rw [consRegAfter, Queue.afterInserts_eq Q hQ]
  have hset : ((runInserts (Queue.freshInit Q, mem0) cmds).1.set_cons_value
      (consRegAfter Q ck)).1 =
      Queue.mk (2 ^ Q) Q (cmds.length % 2 ^ (Q + 1)) (ck % 2 ^ (Q + 1)) := by
    rw [hq, hcons]
    rfl
  obtain ⟨hfull, hempty⟩ := full_empty_char Q cmds.length ck hck hbound
  refine ⟨?_, ?_, ?_, ?_⟩
  · rw [hq, state_prod_wr, mod_two_pow_succ_mod]
  · rw [hq, state_prod_wr_wrap, mod_two_pow_succ_div_parity]
    simp
  · rw [hset]
    exact hfull
  · rw [hset]
    exact hempty

/-- Witness for `cmdq_index_algebra` at `Q = 2`, three inserts, one entry
consumed. -/
theorem cmdq_index_algebra_witness :
    ((2 ≤ MAX_CMD_EVENT_QS ∧
        1 ≤ ([Cmd.cmd_sync, Cmd.cmd_sync, Cmd.cmd_sync] : List Cmd).length ∧
        ([Cmd.cmd_sync, Cmd.cmd_sync, Cmd.cmd_sync] : List Cmd).length ≤
          1 + 2 ^ 2)) ∧
    ((runInserts (Queue.freshInit 2, fun _ => Cmd.cmd_sync)
        [Cmd.cmd_sync, Cmd.cmd_sync, Cmd.cmd_sync]).1.prod_wr =
      ([Cmd.cmd_sync, Cmd.cmd_sync, Cmd.cmd_sync] : List Cmd).length % 2 ^ 2 ∧
    ((runInserts (Queue.freshInit 2, fun _ => Cmd.cmd_sync)
        [Cmd.cmd_sync, Cmd.cmd_sync, Cmd.cmd_sync]).1.prod_wr_wrap = true ↔
      ([Cmd.cmd_sync, Cmd.cmd_sync, Cmd.cmd_sync] : List Cmd).length / 2 ^ 2 %
        2 = 1) ∧
    (((runInserts (Queue.freshInit 2, fun _ => Cmd.cmd_sync)
        [Cmd.cmd_sync, Cmd.cmd_sync, Cmd.cmd_sync]).1.set_cons_value
        (consRegAfter 2 1)).1.full = true ↔
      ([Cmd.cmd_sync, Cmd.cmd_sync, Cmd.cmd_sync] : List Cmd).length - 1 =
        2 ^ 2) ∧
    (((runInserts (Queue.freshInit 2, fun _ => Cmd.cmd_sync)
        [Cmd.cmd_sync, Cmd.cmd_sync, Cmd.cmd_sync]).1.set_cons_value
        (consRegAfter 2 1)).1.empty = true ↔
      ([Cmd.cmd_sync, Cmd.cmd_sync, Cmd.cmd_sync] : List Cmd).length = 1)) :=
  ⟨⟨by decide, by decide, by decide⟩,
    cmdq_index_algebra 2 1 [Cmd.cmd_sync, Cmd.cmd_sync, Cmd.cmd_sync]
      (fun _ => Cmd.cmd_sync) (by decide) (by decide) (by decide)⟩

/-- C1 counterexample to the claim as stated: with `Q = 1`, four inserts and
zero entries consumed (the producer having overfilled the two-slot queue,
which `cmd_insert` permits), `empty()` returns true although `k = 4 ≠ 0 =
cons_k`, so "`empty()` holds exactly when `k = cons_k`" fails without a
no-overfill proviso. -/
theorem cmdq_index_algebra_cex :
    (((runInserts (Queue.freshInit 1, fun _ => Cmd.cmd_sync)
        [Cmd.cmd_sync, Cmd.cmd_sync, Cmd.cmd_sync, Cmd.cmd_sync]).1.set_cons_value
        (consRegAfter 1 0)).1.empty = true) ∧
    ([Cmd.cmd_sync, Cmd.cmd_sync, Cmd.cmd_sync, Cmd.cmd_sync] :
      List Cmd).length ≠ 0 := by
  constructor
  · decide
  · decide

theorem succ_mod_ne (x P : Nat) (hP : 2 ≤ P) : (x + 1) % P ≠ x % P := by
  have hxp : x % P < P := Nat.mod_lt _ (by omega)
  rcases Nat.lt_or_ge (x % P + 1) P with hlt | hge
  · have hstep : (x + 1) % P = x % P + 1 := by
      conv_lhs => rw [show x + 1 = P * (x / P) + (x % P + 1) by
        have := Nat.div_add_mod x P; omega]
      rw [Nat.mul_add_mod, Nat.mod_eq_of_lt hlt]
    omega
  · have hstep : (x + 1) % P = 0 := by
      conv_lhs => rw [show x + 1 = P * (x / P) + P by
        have := Nat.div_add_mod x P; omega]
      rw [Nat.add_mod_right, Nat.mul_mod_right]
    omega

/-- C10 (amended): `cmd_insert` checks no precondition: on any initialized
queue state — including a full one — it writes the command to the slot at
index `prod_wr` and advances the producer by one with wrap, signalling no
error (it is a total function); on a full queue that slot index equals
`cons_rd`, the oldest not-yet-consumed slot; and when the queue has at least
two slots (`qs ≥ 1`) the resulting state is neither full nor empty (for the
degenerate one-slot queue `qs = 0` the resulting state is empty, see the
counterexample). -/
theorem cmd_insert_unchecked (q : Queue) (mem : Nat → Cmd) (cmd : Cmd)
    (hsize : q.queue_size = 2 ^ q.qs) (hprod : q.prod < 2 ^ (q.qs + 1))
    (hfull : q.full = true) :
    (q.cmd_insert mem cmd).2 q.prod_wr = cmd ∧
    (q.cmd_insert mem cmd).1 = q.inc_proc_wq ∧
    q.prod_wr = q.cons_rd ∧
    (1 ≤ q.qs →
      (q.cmd_insert mem cmd).1.full = false ∧
      (q.cmd_insert mem cmd).1.empty = false) := by
  have hP : 0 < 2 ^ q.qs := Nat.two_pow_pos _
  rw [Queue.full, Bool.and_eq_true, beq_iff_eq] at hfull
  refine ⟨Function.update_same _ _ _, rfl, hfull.1, ?_⟩
  intro hqs
  have hinc := Queue.inc_proc_wq_mod q.qs q.prod q rfl hsize
    (by rw [Nat.mod_eq_of_lt hprod])
  have hstep : (q.cmd_insert mem cmd).1 = q.inc_proc_wq := rfl
  rw [hstep, hinc]
  have hpw : ({ q with prod := (q.prod + 1) % 2 ^ (q.qs + 1) } :
      Queue).prod_wr = (q.prod + 1) % 2 ^ q.qs := by
    rw [Queue.prod_wr]
    show (q.prod + 1) % 2 ^ (q.qs + 1) &&& (q.queue_size - 1) = _
    rw [hsize, Nat.and_pow_two_sub_one_eq_mod, mod_two_pow_succ_mod]
  have hcr : ({ q with prod := (q.prod + 1) % 2 ^ (q.qs + 1) } :
      Queue).cons_rd = q.cons_rd := rfl
  have hfe : q.prod_wr = q.prod % 2 ^ q.qs := by
    rw [Queue.prod_wr, hsize, Nat.and_pow_two_sub_one_eq_mod]
  have hne : ((q.prod + 1) % 2 ^ q.qs) ≠ q.cons_rd := by
    rw [← hfull.1, hfe]
    exact succ_mod_ne q.prod (2 ^ q.qs)
      (by calc (2 : Nat) = 2 ^ 1 := by norm_num
            _ ≤ 2 ^ q.qs := Nat.pow_le_pow_right (by omega) hqs)
  have hbeq : (({ q with prod := (q.prod + 1) % 2 ^ (q.qs + 1) } :
      Queue).prod_wr == ({ q with prod := (q.prod + 1) % 2 ^ (q.qs + 1) } :
      Queue).cons_rd) = false := by
    rw [hpw, hcr]
    simp [hne]
  constructor
  · rw [Queue.full, hbeq, Bool.false_and]
  · rw [Queue.empty, hbeq, Bool.false_and]

/-- Witness for `cmd_insert_unchecked`: a full two-slot queue (fresh `Q = 1`
queue after two inserts, nothing consumed). -/
theorem cmd_insert_unchecked_witness :
    (((Queue.freshInit 1).afterInserts 2).queue_size =
        2 ^ ((Queue.freshInit 1).afterInserts 2).qs ∧
      ((Queue.freshInit 1).afterInserts 2).prod <
        2 ^ (((Queue.freshInit 1).afterInserts 2).qs + 1) ∧
      ((Queue.freshInit 1).afterInserts 2).full = true) ∧
    ((((Queue.freshInit 1).afterInserts 2).cmd_insert (fun _ => Cmd.cmd_sync)
        (Cmd.cmd_cfgi_ste 7)).2 ((Queue.freshInit 1).afterInserts 2).prod_wr =
        Cmd.cmd_cfgi_ste 7 ∧
      (((Queue.freshInit 1).afterInserts 2).cmd_insert (fun _ => Cmd.cmd_sync)
        (Cmd.cmd_cfgi_ste 7)).1 =
        ((Queue.freshInit 1).afterInserts 2).inc_proc_wq ∧
      ((Queue.freshInit 1).afterInserts 2).prod_wr =
        ((Queue.freshInit 1).afterInserts 2).cons_rd ∧
      (1 ≤ ((Queue.freshInit 1).afterInserts 2).qs →
        (((Queue.freshInit 1).afterInserts 2).cmd_insert
          (fun _ => Cmd.cmd_sync) (Cmd.cmd_cfgi_ste 7)).1.full = false ∧
        (((Queue.freshInit 1).afterInserts 2).cmd_insert
          (fun _ => Cmd.cmd_sync) (Cmd.cmd_cfgi_ste 7)).1.empty = false)) :=
  ⟨⟨by decide, by decide, by decide⟩,
    cmd_insert_unchecked ((Queue.freshInit 1).afterInserts 2)
      (fun _ => Cmd.cmd_sync) (Cmd.cmd_cfgi_ste 7)
      (by decide) (by decide) (by decide)⟩

/-- C10 counterexample to "yields a state in which neither `full()` nor
`empty()` holds": on the one-slot queue (`Q = 0`), inserting into the full
queue yields a state in which `empty()` holds. -/
theorem cmd_insert_unchecked_cex :
    (((Queue.freshInit 0).cmd_insert (fun _ => Cmd.cmd_sync)
        Cmd.cmd_sync).1.full = true) ∧
    (((((Queue.freshInit 0).cmd_insert (fun _ => Cmd.cmd_sync)
        Cmd.cmd_sync).1.cmd_insert (fun _ => Cmd.cmd_sync)
        Cmd.cmd_sync).1.empty) = true) := by
  constructor
  · decide
  · decide

/-! ## Stream table embedding — src/stream_table.rs -/

/-- src/stream_table.rs:9. -/
def STRTAB_STE_DWORDS_BITS : Nat := 3

/-- src/stream_table.rs:10. -/
def STRTAB_STE_DWORDS : Nat := 1 <<< STRTAB_STE_DWORDS_BITS

/-- src/stream_table.rs:11 — an STE is 8 doublewords = 64 bytes. -/
def STRTAB_STE_SIZE : Nat := STRTAB_STE_DWORDS <<< 3

/-- src/stream_table.rs:18 — V, bit [0]. -/
def STRTAB_STE_0_V : Nat := 0b1 <<< 0

/-- src/stream_table.rs:30 — Config = 0b100 (S1 bypass, S2 bypass), bits
[3:1]. -/
def STRTAB_STE_0_CFG_S1_BYPASS_S2_BYPASS : Nat := 0b100 <<< 1

/-- src/stream_table.rs:31 — Config = 0b110 (S1 bypass, S2 translate), bits
[3:1]. -/
def STRTAB_STE_0_CFG_S1_BYPASS_S2_TRANS : Nat := 0b110 <<< 1

/-- src/stream_table.rs:39 — SHCFG = use incoming shareability, word-1 bit
44 (= 108 - 64). -/
def STRTAB_STE_1_SHCFG_INCOMING : Nat := 0b01 <<< 44

/-- src/stream_table.rs:45. -/
def STRTAB_STE_2_S2VMID_OFFSET : Nat := 0

/-- src/stream_table.rs:51. -/
def STRTAB_STE_2_S2T0SZ_OFFSET : Nat := 32

/-- src/stream_table.rs:61. -/
def STRTAB_STE_2_S2VTCR_LEN : Nat := 19

/-- src/stream_table.rs:63-69 — `DEFAULT_S2VTCR`, built from the external
`aarch64_cpu`/`tock_registers` crates (not part of this repository):
it ORs `FieldValue::mask()` of the listed `VTCR_EL2` fields, and `mask()`
returns the positioned all-ones bitmask of each field (T0SZ [5:0], SL0
[7:6], IRGN0 [9:8], ORGN0 [11:10], SH0 [13:12], TG0 [15:14], PS [18:16]),
whose union is the low 19 bits.  No theorem below depends on this value:
it enters STE word 2 only shifted to bits [50:32]. -/
def DEFAULT_S2VTCR : Nat := 0x7FFFF

/-- src/stream_table.rs:80 — S2AA64, word-2 bit 51 (= 179 - 128). -/
def STRTAB_STE_2_S2AA64 : Nat := 1 <<< 51

/-- src/stream_table.rs:90 — S2PTW, word-2 bit 54 (= 182 - 128). -/
def STRTAB_STE_2_S2PTW : Nat := 1 <<< 54

/-- src/stream_table.rs:97 — S2S, word-2 bit 57 (= 185 - 128). -/
def STRTAB_STE_2_S2S : Nat := 1 <<< 57

/-- src/stream_table.rs:104 — S2R, word-2 bit 58 (= 186 - 128). -/
def STRTAB_STE_2_S2R : Nat := 1 <<< 58

/-- src/stream_table.rs:118. -/
def STRTAB_STE_3_S2TTB_OFF : Nat := 4

/-- src/stream_table.rs:119. -/
def STRTAB_STE_3_S2TTB_LEN : Nat := 48

/-- src/stream_table.rs:121-124 — `extract_bits`. -/
def extract_bits (value start length : Nat) : Nat :=
  let mask := (1 <<< length) - 1
  (value >>> start) &&& mask

/-- src/stream_table.rs:127 — `StreamTableEntry([u64; STRTAB_STE_DWORDS])`:
an STE as its list of 8 doublewords. -/
abbrev StreamTableEntry := List Nat

/-- Doubleword `i` of an STE. -/
def ste_word (e : StreamTableEntry) (i : Nat) : Nat := e.getD i 0

/-- src/stream_table.rs:130-141 — `StreamTableEntry::bypass_entry`. -/
def StreamTableEntry.bypass_entry : StreamTableEntry :=
  [ STRTAB_STE_0_V ||| STRTAB_STE_0_CFG_S1_BYPASS_S2_BYPASS,
    STRTAB_STE_1_SHCFG_INCOMING,
    0, 0, 0, 0, 0, 0 ]

/-- src/stream_table.rs:143-163 — `StreamTableEntry::s2_translated_entry`. -/
def StreamTableEntry.s2_translated_entry (vmid s2pt_base : Nat) :
    StreamTableEntry :=
  [ STRTAB_STE_0_V ||| STRTAB_STE_0_CFG_S1_BYPASS_S2_TRANS,
    STRTAB_STE_1_SHCFG_INCOMING,
    (vmid <<< STRTAB_STE_2_S2VMID_OFFSET)
      ||| (extract_bits DEFAULT_S2VTCR 0 STRTAB_STE_2_S2VTCR_LEN <<<
            STRTAB_STE_2_S2T0SZ_OFFSET)
      ||| STRTAB_STE_2_S2AA64
      ||| STRTAB_STE_2_S2PTW
      ||| STRTAB_STE_2_S2R,
    extract_bits s2pt_base STRTAB_STE_3_S2TTB_OFF STRTAB_STE_3_S2TTB_LEN <<<
      STRTAB_STE_3_S2TTB_OFF,
    0, 0, 0, 0 ]

/-- src/stream_table.rs:166-170 — the linear stream table, modelled as the
array of STEs indexed by StreamID (base address and entry count are
memory-management details). -/
abbrev LinearStreamTable := Nat → StreamTableEntry

/-- src/stream_table.rs:207-210 — `LinearStreamTable::set_bypass_ste`. -/
def set_bypass_ste (t : LinearStreamTable) (sid : Nat) : LinearStreamTable :=
  Function.update t sid StreamTableEntry.bypass_entry

/-- src/stream_table.rs:212-223 — `LinearStreamTable::set_s2_translated_ste`. -/
def set_s2_translated_ste (t : LinearStreamTable) (sid vmid s2pt_base : Nat) :
    LinearStreamTable :=
  Function.update t sid (StreamTableEntry.s2_translated_entry vmid s2pt_base)

/-- C3: every STE the driver writes satisfies the validity/config invariant:
an entry written by `set_bypass_ste` has V (bit 0 of word 0) = 1 and Config
(bits [3:1] of word 0) = 0b100; an entry written by `set_s2_translated_ste`
has V = 1 and Config = 0b110; the two Config values are distinct. -/
theorem ste_valid_config_invariant (t : LinearStreamTable)
    (sid vmid s2pt : Nat) :
    extract_bits (ste_word (set_bypass_ste t sid sid) 0) 0 1 = 1 ∧
    extract_bits (ste_word (set_bypass_ste t sid sid) 0) 1 3 = 0b100 ∧
    extract_bits (ste_word (set_s2_translated_ste t sid vmid s2pt sid) 0) 0 1
      = 1 ∧
    extract_bits (ste_word (set_s2_translated_ste t sid vmid s2pt sid) 0) 1 3
      = 0b110 ∧
    (0b100 : Nat) ≠ 0b110 := by
  simp only [set_bypass_ste, set_s2_translated_ste, Function.update_same]
  have h0 : ste_word (StreamTableEntry.s2_translated_entry vmid s2pt) 0 =
      STRTAB_STE_0_V ||| STRTAB_STE_0_CFG_S1_BYPASS_S2_TRANS := rfl
  rw [h0]
  refine ⟨by decide, by decide, by decide, by decide, by decide⟩

/-- C2: the stage-2 STE round-trips its inputs: for `vmid < 2^16` and
`s2pt_base` 16-byte-aligned in `[0, 2^52)`, bits [15:0] of STE word 2 equal
`vmid`, and STE word 3 equals `s2pt_base[51:4] << 4`, which under the
alignment and range hypotheses is `s2pt_base` itself. -/
theorem ste_s2_round_trip (vmid s2pt : Nat) (hv : vmid < 2 ^ 16)
    (hlt : s2pt < 2 ^ 52) (hal : s2pt % 16 = 0) :
    ste_word (StreamTableEntry.s2_translated_entry vmid s2pt) 2 % 2 ^ 16 =
      vmid ∧
    ste_word (StreamTableEntry.s2_translated_entry vmid s2pt) 3 =
      s2pt / 2 ^ 4 % 2 ^ 48 * 2 ^ 4 ∧
    ste_word (StreamTableEntry.s2_translated_entry vmid s2pt) 3 = s2pt := by
  have hword2 : ste_word (StreamTableEntry.s2_translated_entry vmid s2pt) 2 =
      vmid ||| 0x44FFFFF00000000 := by
    show (vmid <<< STRTAB_STE_2_S2VMID_OFFSET)
        ||| (extract_bits DEFAULT_S2VTCR 0 STRTAB_STE_2_S2VTCR_LEN <<<
              STRTAB_STE_2_S2T0SZ_OFFSET)
        ||| STRTAB_STE_2_S2AA64 ||| STRTAB_STE_2_S2PTW ||| STRTAB_STE_2_S2R
        = vmid ||| 0x44FFFFF00000000
    rw [STRTAB_STE_2_S2VMID_OFFSET, Nat.shiftLeft_zero, Nat.lor_assoc,
      Nat.lor_assoc, Nat.lor_assoc]
    congr 1
  have hword3 : ste_word (StreamTableEntry.s2_translated_entry vmid s2pt) 3 =
      s2pt / 2 ^ 4 % 2 ^ 48 * 2 ^ 4 := by
    show extract_bits s2pt STRTAB_STE_3_S2TTB_OFF STRTAB_STE_3_S2TTB_LEN <<<
        STRTAB_STE_3_S2TTB_OFF = _
    rw [extract_bits, STRTAB_STE_3_S2TTB_OFF, STRTAB_STE_3_S2TTB_LEN,
      Nat.shiftRight_eq_div_pow, and_two_pow_sub_one_shift, Nat.shiftLeft_eq]
  refine ⟨?_, hword3, ?_⟩
  · rw [hword2, show (0x44FFFFF00000000 : Nat) = 2 ^ 32 * 0x44FFFFF by norm_num,
      Nat.lor_comm,
      two_pow_mul_lor_eq_add 0x44FFFFF vmid 32
        (Nat.lt_trans hv (by norm_num))]
    rw [show (2 : Nat) ^ 32 * 0x44FFFFF = 2 ^ 16 * (2 ^ 16 * 0x44FFFFF) by ring,
      Nat.mul_add_mod, Nat.mod_eq_of_lt hv]
  · rw [hword3]
    have hdvd : 16 ∣ s2pt := Nat.dvd_of_mod_eq_zero hal
    have hdivlt : s2pt / 2 ^ 4 < 2 ^ 48 := by
      rw [Nat.div_lt_iff_lt_mul (by norm_num : (0 : Nat) < 2 ^ 4)]
      calc s2pt < 2 ^ 52 := hlt
        _ = 2 ^ 48 * 2 ^ 4 := by norm_num
    rw [Nat.mod_eq_of_lt hdivlt]
    show s2pt / 16 * 16 = s2pt
    exact Nat.div_mul_cancel hdvd

/-- Witness for `ste_s2_round_trip` at `vmid = 0x42`,
`s2pt_base = 0x8000_0000_0000`. -/
theorem ste_s2_round_trip_witness :
    ((0x42 : Nat) < 2 ^ 16 ∧ (0x800000000000 : Nat) < 2 ^ 52 ∧
      (0x800000000000 : Nat) % 16 = 0) ∧
    (ste_word (StreamTableEntry.s2_translated_entry 0x42 0x800000000000) 2 %
        2 ^ 16 = 0x42 ∧
      ste_word (StreamTableEntry.s2_translated_entry 0x42 0x800000000000) 3 =
        0x800000000000 / 2 ^ 4 % 2 ^ 48 * 2 ^ 4 ∧
      ste_word (StreamTableEntry.s2_translated_entry 0x42 0x800000000000) 3 =
        0x800000000000) :=
  ⟨⟨by decide, by norm_num, by norm_num⟩,
    ste_s2_round_trip 0x42 0x800000000000 (by decide) (by norm_num)
      (by norm_num)⟩

/-! ## Command encodings — C4 and C9 -/

/-- The disjoint layout `opcode ||| (sid << 32)` of a command word 0 is the
sum `2^32 * sid + opcode` when the opcode fits in the low byte. -/
theorem opcode_sid_layout (op sid : Nat) (hop : op < 2 ^ 8) :
    op ||| (sid <<< 32) = 2 ^ 32 * sid + op := by
  rw [Nat.shiftLeft_eq, Nat.mul_comm sid, Nat.lor_comm,
    two_pow_mul_lor_eq_add sid op 32 (Nat.lt_trans hop (by norm_num))]

/-- C4: for every `sid < 2^32`, `cmd_cfgi_ste(sid)` is a two-doubleword
(16-byte) command whose word 0 carries opcode 0x03 in bits [7:0] and `sid`
in bits [63:32] with bits [31:8] zero, and whose word 1 is exactly
`Leaf = 1` (all remaining bits zero). -/
theorem cmd_cfgi_ste_encoding (sid : Nat) (_hsid : sid < 2 ^ 32) :
    (Cmd.cmd_cfgi_ste sid).w0 % 2 ^ 8 = CMD_CFGI_STE ∧
    (Cmd.cmd_cfgi_ste sid).w0 / 2 ^ 32 = sid ∧
    (Cmd.cmd_cfgi_ste sid).w0 / 2 ^ 8 % 2 ^ 24 = 0 ∧
    (Cmd.cmd_cfgi_ste sid).w1 = CMDQ_CFGI_1_LEAF := by
  have hw0 : (Cmd.cmd_cfgi_ste sid).w0 = 2 ^ 32 * sid + 0x03 := by
    show (Cmd.dfl.w0 ||| CMD_CFGI_STE) ||| (sid <<< CMD_CFGI_STE_SID_OFFSET)
        = _
    rw [show Cmd.dfl.w0 ||| CMD_CFGI_STE = 0x03 from rfl,
      show CMD_CFGI_STE_SID_OFFSET = 32 from rfl]
    exact opcode_sid_layout 0x03 sid (by norm_num)
  refine ⟨?_, ?_, ?_, rfl⟩
  · rw [hw0, CMD_CFGI_STE]
    omega
  · rw [hw0]
    omega
  · rw [hw0]
    omega

/-- Witness for `cmd_cfgi_ste_encoding` at `sid = 5`. -/
theorem cmd_cfgi_ste_encoding_witness :
    ((5 : Nat) < 2 ^ 32) ∧
    ((Cmd.cmd_cfgi_ste 5).w0 % 2 ^ 8 = CMD_CFGI_STE ∧
      (Cmd.cmd_cfgi_ste 5).w0 / 2 ^ 32 = 5 ∧
      (Cmd.cmd_cfgi_ste 5).w0 / 2 ^ 8 % 2 ^ 24 = 0 ∧
      (Cmd.cmd_cfgi_ste 5).w1 = CMDQ_CFGI_1_LEAF) :=
  ⟨by norm_num, cmd_cfgi_ste_encoding 5 (by norm_num)⟩

/-- Opcode of `PREFETCH_CONFIG` (SMMUv3 §4.1.1). -/
def CMD_PREFETCH_CONFIG : Nat := 0x01

/-- Modelled from the spec: `Cmd::cmd_prefetch_config` is invoked from
`SMMUv3::cmd_prefetch` (src/lib.rs:295) but its definition is not present
under src/.  Spec §4.3: "`PREFETCH_CONFIG(sid)` — opcode `0x01` with `sid`
in bits [63:32]. Word 1: zero." -/
def Cmd.cmd_prefetch_config (stream_id : Nat) : Cmd :=
  { w0 := CMD_PREFETCH_CONFIG ||| (stream_id <<< 32), w1 := 0 }

/-- src/lib.rs:294-297 — `SMMUv3::cmd_prefetch` builds
`Cmd::cmd_prefetch_config(sid as u32)` (the `as u32` cast truncates to 32
bits) and submits it via `add_cmd`; this is the command submitted at step 4
of `add_device` (src/lib.rs:290). -/
def cmd_prefetch (sid : Nat) : Cmd :=
  Cmd.cmd_prefetch_config (sid % 2 ^ 32)

/-- C9: for every `sid < 2^32` the `PREFETCH_CONFIG` command submitted by
`cmd_prefetch(sid)` is a two-doubleword (16-byte) command with opcode 0x01
in bits [7:0] of word 0, `sid` in bits [63:32] with bits [31:8] zero, and
word 1 equal to zero. -/
theorem cmd_prefetch_encoding (sid : Nat) (hsid : sid < 2 ^ 32) :
    cmd_prefetch sid = Cmd.cmd_prefetch_config sid ∧
    (cmd_prefetch sid).w0 % 2 ^ 8 = CMD_PREFETCH_CONFIG ∧
    (cmd_prefetch sid).w0 / 2 ^ 32 = sid ∧
    (cmd_prefetch sid).w0 / 2 ^ 8 % 2 ^ 24 = 0 ∧
    (cmd_prefetch sid).w1 = 0 := by
  have hmod : sid % 2 ^ 32 = sid := Nat.mod_eq_of_lt hsid
  have heq : cmd_prefetch sid = Cmd.cmd_prefetch_config sid := by
    rw [cmd_prefetch, hmod]
  have hw0 : (cmd_prefetch sid).w0 = 2 ^ 32 * sid + 0x01 := by
    rw [heq]
    show CMD_PREFETCH_CONFIG ||| (sid <<< 32) = _
    exact opcode_sid_layout 0x01 sid (by norm_num)
  refine ⟨heq, ?_, ?_, ?_, by rw [heq]; rfl⟩
  · rw [hw0, CMD_PREFETCH_CONFIG]
    omega
  · rw [hw0]
    omega
  · rw [hw0]
    omega

/-- Witness for `cmd_prefetch_encoding` at `sid = 0x100`. -/
theorem cmd_prefetch_encoding_witness :
    ((0x100 : Nat) < 2 ^ 32) ∧
    (cmd_prefetch 0x100 = Cmd.cmd_prefetch_config 0x100 ∧
      (cmd_prefetch 0x100).w0 % 2 ^ 8 = CMD_PREFETCH_CONFIG ∧
      (cmd_prefetch 0x100).w0 / 2 ^ 32 = 0x100 ∧
      (cmd_prefetch 0x100).w0 / 2 ^ 8 % 2 ^ 24 = 0 ∧
      (cmd_prefetch 0x100).w1 = 0) :=
  ⟨by norm_num, cmd_prefetch_encoding 0x100 (by norm_num)⟩

/-! ## Bring-up register programming — C5, C6, C8 -/

/-- src/regs/cr0.rs — bit offset of CR0.SMMUEN. -/
def CR0_SMMUEN_OFFSET : Nat := 0

/-- src/regs/cr0.rs — bit offset of CR0.EVENTQEN. -/
def CR0_EVENTQEN_OFFSET : Nat := 2

/-- src/regs/cr0.rs — bit offset of CR0.CMDQEN. -/
def CR0_CMDQEN_OFFSET : Nat := 3

/-- src/lib.rs:176-178 — the value `SMMUv3::enable` writes to CR0:
`CR0::SMMUEN::Enable + CR0::CMDQEN::Enable + CR0::EVENTQEN::Enable`
(tock-registers sums of field values OR the positioned field values). -/
def enable_cr0_write : Nat :=
  (1 <<< CR0_SMMUEN_OFFSET) ||| (1 <<< CR0_CMDQEN_OFFSET) |||
    (1 <<< CR0_EVENTQEN_OFFSET)

/-- src/lib.rs:180-188 — the CR0ACK poll predicate of `SMMUv3::enable`:
`is_set(SMMUEN) && is_set(CMDQEN) && is_set(EVENTQEN)`. -/
def enable_ack_ok (ack : Nat) : Bool :=
  (ack &&& (1 <<< CR0_SMMUEN_OFFSET) != 0) &&
  (ack &&& (1 <<< CR0_CMDQEN_OFFSET) != 0) &&
  (ack &&& (1 <<< CR0_EVENTQEN_OFFSET) != 0)

/-- Bit table of the constant 13 = 0b1101. -/
theorem testBit_thirteen (i : Nat) :
    Nat.testBit 13 i = (decide (i = 0) || decide (i = 2) || decide (i = 3)) := by
  match i with
  | 0 => decide
  | 1 => decide
  | 2 => decide
  | 3 => decide
  | i + 4 =>
    have h16 : (13 : Nat) < 2 ^ 4 := by norm_num
    have hlt : (13 : Nat) < 2 ^ (i + 4) :=
      Nat.lt_of_lt_of_le h16 (Nat.pow_le_pow_right (by norm_num) (by omega))
    simp [Nat.testBit_lt_two_pow hlt]

/-- C5 (amended): the value written to CR0 at the final enable step asserts
exactly SMMUEN, CMDQEN and EVENTQEN (value 0b1101), and the subsequent
CR0ACK poll succeeds precisely when CR0ACK reflects every asserted bit. -/
theorem enable_cr0_encoding (ack : Nat) :
    enable_cr0_write =
      (1 <<< CR0_SMMUEN_OFFSET) + (1 <<< CR0_EVENTQEN_OFFSET) +
        (1 <<< CR0_CMDQEN_OFFSET) ∧
    (enable_ack_ok ack = true ↔ ack &&& enable_cr0_write = enable_cr0_write) := by
  have h13 : enable_cr0_write = 13 := by decide
  refine ⟨by decide, ?_⟩
  rw [h13]
  have hb : ∀ n : Nat, (ack &&& (1 <<< n) != 0) = true ↔
      Nat.testBit ack n = true := by
    intro n
    rw [Nat.shiftLeft_eq, Nat.one_mul, bne_iff_ne, Ne, Nat.and_two_pow]
    cases h : Nat.testBit ack n <;> simp [h, Nat.pos_iff_ne_zero.mp
      (Nat.two_pow_pos n)]
  constructor
  · intro h
    rw [enable_ack_ok, Bool.and_eq_true, Bool.and_eq_true] at h
    obtain ⟨⟨h0, h3⟩, h2⟩ := h
    rw [hb CR0_SMMUEN_OFFSET] at h0
    rw [hb CR0_CMDQEN_OFFSET] at h3
    rw [hb CR0_EVENTQEN_OFFSET] at h2
    have h0' : Nat.testBit ack 0 = true := h0
    have h3' : Nat.testBit ack 3 = true := h3
    have h2' : Nat.testBit ack 2 = true := h2
    apply Nat.eq_of_testBit_eq
    intro i
    rw [Nat.testBit_and, testBit_thirteen]
    by_cases hi0 : i = 0
    · subst hi0
      rw [h0']
      rfl
    · by_cases hi2 : i = 2
      · subst hi2
        rw [h2']
        rfl
      · by_cases hi3 : i = 3
        · subst hi3
          rw [h3']
          rfl
        · simp [hi0, hi2, hi3]
  · intro h
    rw [enable_ack_ok, Bool.and_eq_true, Bool.and_eq_true]
    have htb : ∀ i : Nat, Nat.testBit (ack &&& 13) i = Nat.testBit 13 i := by
      intro i
      rw [h]
    refine ⟨⟨?_, ?_⟩, ?_⟩
    · rw [hb CR0_SMMUEN_OFFSET]
      have h1 := htb 0
      rw [Nat.testBit_and, show Nat.testBit 13 0 = true from by decide,
        Bool.and_true] at h1
      exact h1
    · rw [hb CR0_CMDQEN_OFFSET]
      have h1 := htb 3
      rw [Nat.testBit_and, show Nat.testBit 13 3 = true from by decide,
        Bool.and_true] at h1
      exact h1
    · rw [hb CR0_EVENTQEN_OFFSET]
      have h1 := htb 2
      rw [Nat.testBit_and, show Nat.testBit 13 2 = true from by decide,
        Bool.and_true] at h1
      exact h1

/-- C5 counterexample to "the value written to CR0 asserts exactly SMMUEN
and CMDQEN (EVENTQEN is not asserted)": the written value has the EVENTQEN
bit set, and the poll refuses an acknowledgment carrying only SMMUEN and
CMDQEN. -/
theorem enable_cr0_eventqen_cex :
    Nat.testBit enable_cr0_write CR0_EVENTQEN_OFFSET = true ∧
    enable_ack_ok ((1 <<< CR0_SMMUEN_OFFSET) ||| (1 <<< CR0_CMDQEN_OFFSET)) =
      false := by
  constructor
  · decide
  · decide

/-- src/lib.rs:85 — `ARM_SMMU_SYNC_TIMEOUT`. -/
def ARM_SMMU_SYNC_TIMEOUT : Nat := 0x1000000

/-- src/lib.rs:127-129 — the value `SMMUv3::init` writes to CR0 before
polling: `CR0::CMDQEN::Enable`. -/
def init_cmdq_cr0_write : Nat := 1 <<< CR0_CMDQEN_OFFSET

/-- Observable events of the CMDQEN polling phase of `SMMUv3::init`. -/
inductive InitEvent where
  | cmdq_enabled_info : InitEvent
  | fatal_error : InitEvent
deriving DecidableEq

/-- src/lib.rs:131-137 — the CMDQEN polling loop of `SMMUv3::init`, generic
in the iteration bound:
`for _timeout in 0..timeout { if CR0ACK.is_set(CMDQEN) { info!(...); break } }`.
`ack t` is the value of `CR0ACK.is_set(CMDQEN)` at the `t`-th read.  The
loop body contains only the check, the info log and the `break`; nothing
after the loop examines whether the acknowledgment was observed, so the
only possible event traces are the single info log (on success) and the
empty trace (on timeout). -/
def poll_events (timeout : Nat) (ack : Nat → Bool) : List InitEvent :=
  match (List.range timeout).find? ack with
  | some _ => [InitEvent.cmdq_enabled_info]
  | none => []

/-- The CMDQEN polling phase of `SMMUv3::init` (src/lib.rs:131-137), with
the source's bound `ARM_SMMU_SYNC_TIMEOUT`. -/
def init_cmdqen_poll (ack : Nat → Bool) : List InitEvent :=
  poll_events ARM_SMMU_SYNC_TIMEOUT ack

theorem poll_events_cases (n : Nat) (ack : Nat → Bool) :
    (poll_events n ack = [InitEvent.cmdq_enabled_info] ∨
      poll_events n ack = []) ∧
    (poll_events n ack = [] ↔ ∀ t, t < n → ack t = false) := by
  unfold poll_events
  rcases h : (List.range n).find? ack with _ | v
  · refine ⟨Or.inr rfl, ?_⟩
    rw [List.find?_eq_none] at h
    simp only [true_iff]
    intro t ht
    have := h t (List.mem_range.mpr ht)
    simpa using this
  · refine ⟨Or.inl rfl, ?_⟩
    have hv := List.find?_some h
    have hm := List.mem_of_find?_eq_some h
    rw [List.mem_range] at hm
    constructor
    · intro habs
      simp at habs
    · intro hall
      rw [hall v hm] at hv
      exact absurd hv Bool.false_ne_true

/-- C6 (amended): `init` writes CR0.CMDQEN = 1 and polls CR0ACK.CMDQEN for
at most 0x1000000 iterations; the poll phase emits at most the info log —
never a fatal error — and it emits nothing exactly when no read within the
bounded loop observed the acknowledgment, in which case `init` continues
silently. -/
theorem init_cmdqen_poll_silent (ack : Nat → Bool) :
    init_cmdq_cr0_write = 1 <<< CR0_CMDQEN_OFFSET ∧
    (init_cmdqen_poll ack = [InitEvent.cmdq_enabled_info] ∨
      init_cmdqen_poll ack = []) ∧
    (init_cmdqen_poll ack = [] ↔
      ∀ t, t < ARM_SMMU_SYNC_TIMEOUT → ack t = false) := by
  obtain ⟨h1, h2⟩ := poll_events_cases ARM_SMMU_SYNC_TIMEOUT ack
  exact ⟨rfl, h1, h2⟩

/-- C6 counterexample to "the driver raises a fatal error; init does not
continue silently past an unacknowledged CMDQEN": when CR0ACK.CMDQEN is
never observed set, the polling phase of `init` produces no event at all —
no fatal error, no log — and `init` proceeds. -/
theorem init_cmdqen_poll_cex :
    init_cmdqen_poll (fun _ => false) = [] ∧
    InitEvent.fatal_error ∉ init_cmdqen_poll (fun _ => false) := by
  have h : init_cmdqen_poll (fun _ => false) = [] :=
    (poll_events_cases ARM_SMMU_SYNC_TIMEOUT (fun _ => false)).2.mpr
      (fun t ht => rfl)
  refine ⟨h, ?_⟩
  rw [h]
  simp

/-! ## Consumer mirroring — C7 -/

/-- C7 (amended): `set_cons_value` stores the observed `CMDQ_CONS` value
unchanged — no masking or clamping is performed; the warning is logged
exactly when the (32-bit) value has a bit set at or above bit `Q`, i.e.
when it does not fit in the `Q`-bit index field, so even a legitimate value
whose wrap bit (bit `Q`) is set triggers the warning. -/
theorem set_cons_value_stores_raw (q : Queue) (c : Nat) (hq : q.qs ≤ 32)
    (hc : c < 2 ^ 32) :
    (q.set_cons_value c).1.cons = c ∧
    ((q.set_cons_value c).2 = true ↔ 2 ^ q.qs ≤ c) := by
  refine ⟨rfl, ?_⟩
  show (c &&& (((1 <<< 32) - 1) ^^^ ((1 <<< q.qs) - 1)) != 0) = true ↔ _
  rw [bne_iff_ne]
  have hshift : ∀ n : Nat, ((1 : Nat) <<< n) - 1 = 2 ^ n - 1 := by
    intro n
    rw [Nat.shiftLeft_eq, Nat.one_mul]
  rw [hshift, hshift]
  have hmask : ∀ i : Nat, Nat.testBit ((2 ^ 32 - 1) ^^^ (2 ^ q.qs - 1)) i =
      (decide (q.qs ≤ i) && decide (i < 32)) := by
    intro i
    rw [Nat.testBit_xor, Nat.testBit_two_pow_sub_one,
      Nat.testBit_two_pow_sub_one]
    by_cases h1 : i < 32 <;> by_cases h2 : i < q.qs <;>
      simp [h1, h2] <;> omega
  constructor
  · intro hne
    by_contra hlt
    push_neg at hlt
    apply hne
    apply Nat.eq_of_testBit_eq
    intro i
    rw [Nat.testBit_and, hmask i, Nat.zero_testBit]
    by_cases hge : q.qs ≤ i
    · have hci : c < 2 ^ i :=
        Nat.lt_of_lt_of_le hlt (Nat.pow_le_pow_right (by omega) hge)
      rw [Nat.testBit_lt_two_pow hci]
      simp
    · simp [hge]
  · intro hge hzero
    obtain ⟨i, hi_ge, hbit⟩ := Nat.ge_two_pow_implies_high_bit_true hge
    have hi32 : i < 32 := by
      by_contra hge32
      push_neg at hge32
      have hci : c < 2 ^ i :=
        Nat.lt_of_lt_of_le hc (Nat.pow_le_pow_right (by omega) hge32)
      rw [Nat.testBit_lt_two_pow hci] at hbit
      exact Bool.false_ne_true hbit
    have hcontr := congrArg (fun x => Nat.testBit x i) hzero
    simp only [Nat.testBit_and, hmask i, Nat.zero_testBit] at hcontr
    rw [hbit] at hcontr
    simp [hi_ge, hi32] at hcontr

/-- Witness for `set_cons_value_stores_raw`: a fresh `Q = 7` queue receiving
the wrap-bit value 0x80. -/
theorem set_cons_value_stores_raw_witness :
    ((Queue.freshInit 7).qs ≤ 32 ∧ (0x80 : Nat) < 2 ^ 32) ∧
    (((Queue.freshInit 7).set_cons_value 0x80).1.cons = 0x80 ∧
      (((Queue.freshInit 7).set_cons_value 0x80).2 = true ↔
        2 ^ (Queue.freshInit 7).qs ≤ 0x80)) :=
  ⟨⟨by decide, by norm_num⟩,
    set_cons_value_stores_raw (Queue.freshInit 7) 0x80 (by decide)
      (by norm_num)⟩

/-- C7 counterexample: with `Q = 7`, the value 0x100 lies outside the low
`Q + 1 = 8` bits, yet it is stored untouched (0x100, not clamped to
0x100 mod 2^8 = 0); moreover the value 0x80, which fits the low `Q + 1`
bits exactly (it is the wrap bit), is nevertheless logged. -/
theorem set_cons_value_cex :
    ((Queue.freshInit 7).set_cons_value 0x100).1.cons ≠ 0x100 % 2 ^ (7 + 1) ∧
    ((Queue.freshInit 7).set_cons_value 0x80).2 = true ∧
    (0x80 : Nat) < 2 ^ (7 + 1) := by
  refine ⟨by decide, by decide, by decide⟩

/-! ## Command Queue sizing — C8 -/

/-- src/lib.rs:111-113 — the effective Command Queue log2 size chosen by
`SMMUv3::init`: the platform constant `H::CMDQ_EVENTQ_BITS_SET` is passed
to `Queue::init`, which clamps it to `MAX_CMD_EVENT_QS`; the hardware
`IDR1.CMDQS` value (`_idr1_cmdqs`) is read at src/lib.rs:111 only for a log
line and imposes no bound. -/
def init_effective_cmdqs (cmdq_eventq_bits_set _idr1_cmdqs : Nat) : Nat :=
  (Queue.uninit.init cmdq_eventq_bits_set).qs

/-- src/lib.rs:114-118 — the LOG2SIZE field value written to CMDQ_BASE:
`CMDQ_BASE::LOG2SIZE.val(cmdqs_log2)` with the unclamped platform constant;
tock-registers masks the written value to the 5-bit field
(src/regs/cmdq_base.rs, `LOG2SIZE OFFSET(0) NUMBITS(5)`). -/
def cmdq_base_log2size (cmdq_eventq_bits_set : Nat) : Nat :=
  cmdq_eventq_bits_set &&& ((1 <<< 5) - 1)

/-- C8 (amended): for every platform constant `CMDQ_EVENTQ_BITS_SET` and
every hardware-advertised `IDR1.CMDQS`, the effective Command Queue log2
size used by the software queue is `min(CMDQ_EVENTQ_BITS_SET, 19)` — it
never exceeds 19, and `IDR1.CMDQS` imposes no bound — while the LOG2SIZE
field written to CMDQ_BASE is the unclamped constant masked to the 5-bit
register field (`CMDQ_EVENTQ_BITS_SET mod 32`); whenever the constant is
at most 19 the written LOG2SIZE therefore equals the effective size. -/
theorem cmdqs_effective_log2size (s cmdqs : Nat) :
    init_effective_cmdqs s cmdqs = min s MAX_CMD_EVENT_QS ∧
    init_effective_cmdqs s cmdqs ≤ MAX_CMD_EVENT_QS ∧
    cmdq_base_log2size s = s % 2 ^ 5 ∧
    (s ≤ MAX_CMD_EVENT_QS →
      cmdq_base_log2size s = init_effective_cmdqs s cmdqs) := by
  have heff : init_effective_cmdqs s cmdqs = min s MAX_CMD_EVENT_QS := rfl
  have hmask : cmdq_base_log2size s = s % 2 ^ 5 := by
    rw [cmdq_base_log2size, and_two_pow_sub_one_shift]
  refine ⟨heff, ?_, hmask, ?_⟩
  · rw [heff]
    exact Nat.min_le_right _ _
  · intro h
    have h19 : s ≤ 19 := h
    rw [heff, hmask, Nat.min_eq_left h, Nat.mod_eq_of_lt (by omega : s < 2 ^ 5)]

/-- Witness for `cmdqs_effective_log2size` at platform constant 8,
hardware CMDQS 19 (the implication's premise `8 ≤ 19` holds there). -/
theorem cmdqs_effective_log2size_witness :
    init_effective_cmdqs 8 19 = min 8 MAX_CMD_EVENT_QS ∧
    init_effective_cmdqs 8 19 ≤ MAX_CMD_EVENT_QS ∧
    cmdq_base_log2size 8 = 8 % 2 ^ 5 ∧
    ((8 : Nat) ≤ MAX_CMD_EVENT_QS →
      cmdq_base_log2size 8 = init_effective_cmdqs 8 19) :=
  cmdqs_effective_log2size 8 19

/-- C8 counterexample: with platform constant 20 and hardware advertising
`CMDQS = 5`, the effective size used by the software queue is 19, which is
not `≤ min(19, CMDQS) = 5` (the code never consults CMDQS), and the
LOG2SIZE field written to CMDQ_BASE is the unclamped 20 ≠ 19. -/
theorem cmdqs_effective_log2size_cex :
    init_effective_cmdqs 20 5 = 19 ∧
    ¬(init_effective_cmdqs 20 5 ≤ min 19 5) ∧
    cmdq_base_log2size 20 = 20 ∧
    cmdq_base_log2size 20 ≠ init_effective_cmdqs 20 5 := by
  refine ⟨by decide, by decide, by decide, by decide⟩

end Smmu
